import Mathlib

/-!
Verification of `convert_logging.py`, a line-oriented rewriter that converts
legacy `Logger::log` calls into structured-logging macro calls.

The Python source is embedded shallowly.  The regular expression

  Logger::log\s*\(\s*(LogLevel::\w+)\s*,\s*"([^"]*)"(?:\s*,\s*__FILE__\s*,\s*__LINE__)?\s*\);

is modelled by an explicit deterministic matcher: every star-quantified
character class in the pattern is followed by a character disjoint from the
class, so greedy maximal-munch matching coincides with the backtracking
engine; the one optional group is tried greedily with an explicit fallback,
exactly as the engine does.  Character classes are modelled at ASCII level.
`re.sub` (leftmost, non-overlapping, replace-all) is modelled by a scanner
structured over a fuel argument equal to the input length, which always
suffices because every recursive step strictly shortens the remaining input.
-/

namespace ConvertLogging

/-- ASCII model of the regex class \s. -/
def isWS (c : Char) : Bool :=
  c = ' ' || c = '\t' || c = '\n' || c = '\x0b' || c = '\x0c' || c = '\r'

/-- ASCII model of the regex class \w. -/
def isWordChar (c : Char) : Bool := c.isAlphanum || c = '_'

/-- The regex class [^"] (any character other than a double quote). -/
def notQuote (c : Char) : Bool := c ≠ '"'

/-- Consume \s* (maximal munch). -/
def skipWS (cs : List Char) : List Char := cs.dropWhile isWS

/-- Consume a literal; `none` when the input does not start with it. -/
def stripL : List Char → List Char → Option (List Char)
  | [], cs => some cs
  | _ :: _, [] => none
  | p :: ps, c :: cs => if c = p then stripL ps cs else none

/-- Consume one expected character. -/
def expectC (a : Char) : List Char → Option (List Char)
  | [] => none
  | c :: cs => if c = a then some cs else none

/-- Boolean test: does the needle begin the haystack? -/
def isPrefL : List Char → List Char → Bool
  | [], _ => true
  | _ :: _, [] => false
  | a :: as, b :: bs => a = b && isPrefL as bs

/-- Python `needle in haystack` substring test. -/
def containsL (needle : List Char) : List Char → Bool
  | [] => needle.isEmpty
  | c :: cs => isPrefL needle (c :: cs) || containsL needle cs

def lLoggerLog : List Char := "Logger::log".data
def lLogLevel : List Char := "LogLevel::".data
def lFILE : List Char := "__FILE__".data
def lLINE : List Char := "__LINE__".data

/-- The fixed comment the fallback branch appends to a flagged line. -/
def reviewMarker : String := " // TODO: Convert to structured logging"

/-- The level mapper `convert_log_level`: the fixed dict lookup with default `SLOG_INFO()`. -/
def convert_log_level (old_level : String) : String :=
  if old_level = "LogLevel::DEBUG" then "SLOG_DEBUG()"
  else if old_level = "LogLevel::INFO" then "SLOG_INFO()"
  else if old_level = "LogLevel::WARNING" then "SLOG_WARNING()"
  else if old_level = "LogLevel::ERROR_LEVEL" then "SLOG_ERROR()"
  else if old_level = "LogLevel::CRITICAL" then "SLOG_CRITICAL()"
  else "SLOG_INFO()"

/-- Python substring test on strings. -/
def containsS (needle s : String) : Bool := containsL needle.data s.data

/-- The `replacer` closure of `convert_logger_log`, including its
message-content branches exactly as written in the source. -/
def replacer (level message : String) : String :=
  let mname := convert_log_level level
  if containsS "[FAILED]" message || containsS "[ERROR]" message then
    mname ++ ".message(\"" ++ message ++ "\");"
  else if containsS "[OK]" message || containsS "[INFO]" message then
    mname ++ ".message(\"" ++ message ++ "\");"
  else
    mname ++ ".message(\"" ++ message ++ "\");"

/-- Modelled from the spec: the branch-free replacement the spec describes,
MacroName followed by the fixed accessor call carrying the message. -/
def replacerSimple (level message : String) : String :=
  convert_log_level level ++ ".message(\"" ++ message ++ "\");"

/-- The optional regex group (?:\s*,\s*__FILE__\s*,\s*__LINE__). -/
def matchFileLine (cs : List Char) : Option (List Char) :=
  (expectC ',' (skipWS cs)).bind fun cs1 =>
    (stripL lFILE (skipWS cs1)).bind fun cs2 =>
      (expectC ',' (skipWS cs2)).bind fun cs3 =>
        stripL lLINE (skipWS cs3)

/-- The pattern tail \s*\); . -/
def matchClose (cs : List Char) : Option (List Char) :=
  (expectC ')' (skipWS cs)).bind fun cs1 => expectC ';' cs1

/-- The optional group tried greedily, with the regex-engine fallback to the
empty alternative when the continuation fails. -/
def matchTail (cs : List Char) : Option (List Char) :=
  match matchFileLine cs with
  | some cs1 =>
    match matchClose cs1 with
    | some r => some r
    | none => matchClose cs
  | none => matchClose cs

/-- Try to match the full pattern at the head of the input; on success
returns (group 1, group 2, remaining input). -/
def matchAtL (cs : List Char) : Option (List Char × List Char × List Char) :=
  (stripL lLoggerLog cs).bind fun cs1 =>
    (expectC '(' (skipWS cs1)).bind fun cs2 =>
      (stripL lLogLevel (skipWS cs2)).bind fun cs3 =>
        let w := cs3.takeWhile isWordChar
        if w.isEmpty then none
        else
          (expectC ',' (skipWS (cs3.dropWhile isWordChar))).bind fun cs4 =>
            (expectC '"' (skipWS cs4)).bind fun cs5 =>
              let msg := cs5.takeWhile notQuote
              (expectC '"' (cs5.dropWhile notQuote)).bind fun cs6 =>
                (matchTail cs6).map fun r => (lLogLevel ++ w, msg, r)

/-- The replacement text built by `replacer`, on character lists. -/
def replacerL (lvl msg : List Char) : List Char :=
  (replacer (String.mk lvl) (String.mk msg)).data

/-- Scanning loop of `re.sub` with explicit fuel: leftmost match, non-overlapping,
replace all.  Fuel equal to the input length always suffices because each
step strictly shortens the input (a match consumes the 11-character literal
at least, and `drop` never lengthens a list). -/
def subFuel : Nat → List Char → List Char
  | _, [] => []
  | 0, c :: rest => c :: rest
  | Nat.succ fuel, c :: rest =>
    match matchAtL (c :: rest) with
    | some (lvl, msg, r) =>
      replacerL lvl msg ++ subFuel fuel (rest.drop (rest.length - r.length))
    | none => c :: subFuel fuel rest

/-- The full substitution `re.sub(pattern, replacer, line)`. -/
def subAll (cs : List Char) : List Char := subFuel cs.length cs

/-- The rewriter `convert_logger_log` on character lists. -/
def convertLoggerLogL (line : List Char) : List Char :=
  let newLine := subAll line
  if containsL lLoggerLog line ∧ newLine = line then
    line ++ reviewMarker.data
  else newLine

/-- The rewriter `convert_logger_log` on strings. -/
def convert_logger_log (line : String) : String :=
  String.mk (convertLoggerLogL line.data)

/-- Python `readlines`: split into lines keeping each newline terminator;
a final fragment without a terminator is kept, and an empty input yields
no lines. -/
def splitKeepAux (acc : List Char) : List Char → List (List Char)
  | [] => if acc.isEmpty then [] else [acc.reverse]
  | c :: cs =>
    if c = '\n' then (acc.reverse ++ ['\n']) :: splitKeepAux [] cs
    else splitKeepAux (c :: acc) cs

def splitLinesKeep (s : String) : List String :=
  (splitKeepAux [] s.data).map String.mk

/-- The per-line loop of `process_file`. -/
def process_file_lines (lines : List String) : List String :=
  lines.map convert_logger_log

/-- The file job `process_file` at the content level: read all lines, rewrite each in
order, write them back concatenated. -/
def process_file_content (content : String) : String :=
  String.join (process_file_lines (splitLinesKeep content))

/-- The file job `process_file` over a file-system model (association list path ↦
content); a missing file is the per-file read failure, with a cause string
naming the path as the runtime does. -/
def process_file_fs (fs : List (String × String)) (path : String) :
    Except String (List (String × String)) :=
  match fs.lookup path with
  | none => Except.error ("No such file or directory: " ++ path)
  | some content => Except.ok ((path, process_file_content content) :: fs)

/-- The `__main__` loop body: for each path try `process_file`, print a
success line or catch the failure, print a diagnostic naming the path and
cause, and continue with the remaining paths. -/
def runFiles (fs : List (String × String)) :
    List String → List String × List (String × String)
  | [] => ([], fs)
  | p :: ps =>
    match process_file_fs fs p with
    | Except.ok fs1 =>
      let r := runFiles fs1 ps
      (("Processed: " ++ p) :: r.1, r.2)
    | Except.error e =>
      let r := runFiles fs ps
      (("Error processing " ++ p ++ ": " ++ e) :: r.1, r.2)

def usageMsg : String := "Usage: python convert_logging.py <file1> [file2] ..."

/-- The `__main__` block: returns (exit code, printed lines, final file
system).  Zero paths: usage message and exit 1; otherwise the loop runs to
completion and the process exits 0. -/
def main_run (fs : List (String × String)) (args : List String) :
    Nat × List String × List (String × String) :=
  match args with
  | [] => (1, [usageMsg], fs)
  | _ :: _ =>
    let r := runFiles fs args
    (0, r.1, r.2)

/-- A canonical single-line legacy call body: the literal call name, the
level token `LogLevel::w`, the quoted message, then `tail` (the part after
the closing quote of the message region). -/
def callBody (w msg tail : List Char) : List Char :=
  lLoggerLog ++
    ('(' :: (lLogLevel ++ (w ++ (',' :: ' ' :: '"' :: (msg ++ ('"' :: tail))))))

/-- Canonical legacy call without the positional markers. -/
def mkCallNoFL (w msg : List Char) : List Char :=
  callBody w msg (')' :: ';' :: [])

/-- The tail carrying the `, __FILE__, __LINE__` pair and then `);` ++ rest. -/
def flTail (rest : List Char) : List Char :=
  ',' :: ' ' :: (lFILE ++ (',' :: ' ' :: (lLINE ++ (')' :: ';' :: rest))))

/-- Canonical legacy call with the `__FILE__, __LINE__` pair. -/
def mkCallFL (w msg : List Char) : List Char :=
  callBody w msg (flTail [])

/-- The replacement a matched canonical call produces. -/
def replOut (w msg : List Char) : List Char := replacerL (lLogLevel ++ w) msg

/-! ### Helper lemmas about the matcher primitives -/

theorem stripL_self_append (p t : List Char) : stripL p (p ++ t) = some t := by
  induction p with
  | nil => rfl
  | cons a as ih => simp [stripL, ih]

theorem stripL_eq_append {p cs r : List Char} (h : stripL p cs = some r) : cs = p ++ r := by
  induction p generalizing cs with
  | nil =>
    simp [stripL] at h
    simp [h]
  | cons a as ih =>
    cases cs with
    | nil => simp [stripL] at h
    | cons c cs' =>
      by_cases hc : c = a
      · subst hc
        simp only [stripL, if_pos rfl] at h
        simpa using ih h
      · simp [stripL, hc] at h

theorem isPrefL_self_append (p t : List Char) : isPrefL p (p ++ t) = true := by
  induction p with
  | nil => rfl
  | cons a as ih => simp [isPrefL, ih]

theorem stripL_none_of_not_isPrefL {p cs : List Char} (h : isPrefL p cs = false) :
    stripL p cs = none := by
  cases hs : stripL p cs with
  | none => rfl
  | some r =>
    rw [stripL_eq_append hs, isPrefL_self_append] at h
    cases h

theorem containsL_cons (n : List Char) (c : Char) (cs : List Char) :
    containsL n (c :: cs) = (isPrefL n (c :: cs) || containsL n cs) := rfl

theorem stripL_suffix {p cs r : List Char} (h : stripL p cs = some r) : r <:+ cs := by
  rw [stripL_eq_append h]
  exact List.suffix_append _ _

theorem skipWS_suffix (cs : List Char) : skipWS cs <:+ cs := List.dropWhile_suffix _

theorem expectC_suffix {a : Char} {cs r : List Char} (h : expectC a cs = some r) : r <:+ cs := by
  cases cs with
  | nil => simp [expectC] at h
  | cons c cs' =>
    by_cases hc : c = a
    · simp only [expectC, if_pos hc, Option.some.injEq] at h
      rw [← h]
      exact List.suffix_cons c cs'
    · simp [expectC, hc] at h

/-- Equation lemma: the optional group fails, so only the plain close is tried. -/
theorem matchTail_of_fl_none {cs : List Char} (h : matchFileLine cs = none) :
    matchTail cs = matchClose cs := by
  unfold matchTail
  rw [h]

/-- Equation lemma: the optional group succeeds and the close succeeds after it. -/
theorem matchTail_of_fl_some_close_some {cs cs1 r : List Char}
    (h1 : matchFileLine cs = some cs1) (h2 : matchClose cs1 = some r) :
    matchTail cs = some r := by
  unfold matchTail
  rw [h1]
  show (match matchClose cs1 with
        | some r => some r
        | none => matchClose cs) = some r
  rw [h2]

/-- Equation lemma: the optional group succeeds but the close then fails, so
the engine backtracks to the empty alternative. -/
theorem matchTail_of_fl_some_close_none {cs cs1 : List Char}
    (h1 : matchFileLine cs = some cs1) (h2 : matchClose cs1 = none) :
    matchTail cs = matchClose cs := by
  unfold matchTail
  rw [h1]
  show (match matchClose cs1 with
        | some r => some r
        | none => matchClose cs) = matchClose cs
  rw [h2]

theorem matchFileLine_suffix {cs r : List Char} (h : matchFileLine cs = some r) : r <:+ cs := by
  simp only [matchFileLine, Option.bind_eq_some] at h
  obtain ⟨cs1, h1, cs2, h2, cs3, h3, h4⟩ := h
  have s1 : r <:+ cs3 := (stripL_suffix h4).trans (skipWS_suffix cs3)
  have s2 : cs3 <:+ cs2 := (expectC_suffix h3).trans (skipWS_suffix cs2)
  have s3 : cs2 <:+ cs1 := (stripL_suffix h2).trans (skipWS_suffix cs1)
  have s4 : cs1 <:+ cs := (expectC_suffix h1).trans (skipWS_suffix cs)
  exact ((s1.trans s2).trans s3).trans s4

theorem matchClose_suffix {cs r : List Char} (h : matchClose cs = some r) : r <:+ cs := by
  simp only [matchClose, Option.bind_eq_some] at h
  obtain ⟨cs1, h1, h2⟩ := h
  exact (expectC_suffix h2).trans ((expectC_suffix h1).trans (skipWS_suffix cs))

theorem matchTail_suffix {cs r : List Char} (h : matchTail cs = some r) : r <:+ cs := by
  unfold matchTail at h
  cases h1 : matchFileLine cs with
  | none =>
    rw [h1] at h
    exact matchClose_suffix h
  | some cs1 =>
    rw [h1] at h
    replace h : (match matchClose cs1 with
        | some r => some r
        | none => matchClose cs) = some r := h
    cases h2 : matchClose cs1 with
    | none =>
      rw [h2] at h
      exact matchClose_suffix h
    | some r' =>
      rw [h2] at h
      cases h
      exact (matchClose_suffix h2).trans (matchFileLine_suffix h1)

theorem matchAtL_some_dest {cs lvl msg r : List Char}
    (h : matchAtL cs = some (lvl, msg, r)) :
    ∃ t, cs = lLoggerLog ++ t ∧ r <:+ t := by
  simp only [matchAtL, Option.bind_eq_some] at h
  obtain ⟨cs1, h1, cs2, h2, cs3, h3, h⟩ := h
  refine ⟨cs1, stripL_eq_append h1, ?_⟩
  by_cases hw : (cs3.takeWhile isWordChar).isEmpty
  · rw [if_pos hw] at h
    cases h
  · rw [if_neg hw] at h
    simp only [Option.bind_eq_some, Option.map_eq_some'] at h
    obtain ⟨cs4, h4, cs5, h5, cs6, h6, r', h7, h8⟩ := h
    have hr : r' = r := congrArg (fun p => p.2.2) h8
    have s1 : r <:+ cs6 := hr ▸ matchTail_suffix h7
    have s2 : cs6 <:+ cs5 := (expectC_suffix h6).trans (List.dropWhile_suffix _)
    have s3 : cs5 <:+ cs4 := (expectC_suffix h5).trans (skipWS_suffix cs4)
    have s4 : cs4 <:+ cs3 :=
      (expectC_suffix h4).trans ((skipWS_suffix _).trans (List.dropWhile_suffix _))
    have s5 : cs3 <:+ cs2 := (stripL_suffix h3).trans (skipWS_suffix cs2)
    have s6 : cs2 <:+ cs1 := (expectC_suffix h2).trans (skipWS_suffix cs1)
    exact ((((s1.trans s2).trans s3).trans s4).trans s5).trans s6

theorem matchAtL_nil : matchAtL [] = none := rfl

theorem matchAtL_isPrefL {cs : List Char} {x : List Char × List Char × List Char}
    (h : matchAtL cs = some x) : isPrefL lLoggerLog cs = true := by
  obtain ⟨lvl, msg, r⟩ := x
  obtain ⟨t, ht, -⟩ := matchAtL_some_dest h
  rw [ht]
  exact isPrefL_self_append _ _

theorem matchAtL_none_of_not_isPrefL {cs : List Char}
    (h : isPrefL lLoggerLog cs = false) : matchAtL cs = none := by
  unfold matchAtL
  rw [stripL_none_of_not_isPrefL h]
  rfl

/-! ### Unfolding lemmas for the scanner -/

theorem subFuel_congr : ∀ {f : Nat} {cs : List Char} (g : Nat),
    cs.length ≤ f → cs.length ≤ g → subFuel f cs = subFuel g cs := by
  intro f
  induction f with
  | zero =>
    intro cs g hf _
    cases cs with
    | nil => cases g <;> rfl
    | cons c rest => simp at hf
  | succ f ih =>
    intro cs g hf hg
    cases cs with
    | nil => cases g <;> rfl
    | cons c rest =>
      cases g with
      | zero => simp at hg
      | succ g' =>
        have h1 : rest.length ≤ f := by
          simp only [List.length_cons] at hf; omega
        have h2 : rest.length ≤ g' := by
          simp only [List.length_cons] at hg; omega
        simp only [subFuel]
        cases hm : matchAtL (c :: rest) with
        | none =>
          show c :: subFuel f rest = c :: subFuel g' rest
          rw [ih g' h1 h2]
        | some x =>
          obtain ⟨lvl, msg, r⟩ := x
          have hd : (rest.drop (rest.length - r.length)).length ≤ rest.length := by
            rw [List.length_drop]; omega
          show replacerL lvl msg ++ subFuel f (rest.drop (rest.length - r.length)) =
            replacerL lvl msg ++ subFuel g' (rest.drop (rest.length - r.length))
          rw [ih g' (hd.trans h1) (hd.trans h2)]

theorem subAll_nil : subAll [] = [] := rfl

theorem subAll_cons_none {c : Char} {rest : List Char}
    (h : matchAtL (c :: rest) = none) : subAll (c :: rest) = c :: subAll rest := by
  show subFuel (c :: rest).length (c :: rest) = c :: subAll rest
  simp only [List.length_cons, subFuel, h]
  rfl

theorem suffix_drop_eq {r rest : List Char} (h : r <:+ rest) :
    rest.drop (rest.length - r.length) = r := by
  obtain ⟨t, rfl⟩ := h
  have hl : (t ++ r).length - r.length = t.length := by
    simp only [List.length_append]; omega
  rw [hl, List.drop_left]

theorem lLoggerLog_length : lLoggerLog.length = 11 := rfl

theorem subAll_cons_some {c : Char} {rest lvl msg r : List Char}
    (h : matchAtL (c :: rest) = some (lvl, msg, r)) :
    subAll (c :: rest) = replacerL lvl msg ++ subAll r := by
  obtain ⟨t, hcs, hr⟩ := matchAtL_some_dest h
  have hlen : r.length ≤ rest.length := by
    have h1 : r.length ≤ t.length := hr.length_le
    have h2 : (c :: rest).length = lLoggerLog.length + t.length := by
      rw [hcs, List.length_append]
    rw [lLoggerLog_length, List.length_cons] at h2
    omega
  have hsfx : r <:+ rest := by
    have hrc : r <:+ c :: rest := by
      rw [hcs]
      exact hr.trans (List.suffix_append _ _)
    rcases List.suffix_cons_iff.mp hrc with h' | h'
    · rw [h'] at hlen
      simp only [List.length_cons] at hlen
      omega
    · exact h'
  show subFuel (c :: rest).length (c :: rest) = _
  simp only [List.length_cons, subFuel, h]
  rw [suffix_drop_eq hsfx]
  congr 1
  exact subFuel_congr r.length hlen (le_refl _)

theorem subAll_match {cs lvl msg r : List Char}
    (h : matchAtL cs = some (lvl, msg, r)) :
    subAll cs = replacerL lvl msg ++ subAll r := by
  cases cs with
  | nil => rw [matchAtL_nil] at h; cases h
  | cons c rest => exact subAll_cons_some h

theorem subAll_id_of_not_contains {cs : List Char}
    (h : containsL lLoggerLog cs = false) : subAll cs = cs := by
  induction cs with
  | nil => rfl
  | cons c rest ih =>
    rw [containsL_cons, Bool.or_eq_false_iff] at h
    rw [subAll_cons_none (matchAtL_none_of_not_isPrefL h.1), ih h.2]

/-- The fixed point of the rewriter on lines free of the legacy call name. -/
theorem noLegacy_fix {line : List Char}
    (h : containsL lLoggerLog line = false) : convertLoggerLogL line = line := by
  unfold convertLoggerLogL
  rw [subAll_id_of_not_contains h]
  simp [h]

theorem string_mk_data (s : String) : String.mk s.data = s := rfl

theorem noLegacy_fix_str {line : String}
    (h : containsS "Logger::log" line = false) : convert_logger_log line = line := by
  unfold convert_logger_log
  rw [noLegacy_fix h, string_mk_data]

/-! ### Symbolic evaluation of the matcher on a canonical legacy call -/

theorem skipWS_cons_not {c : Char} (cs : List Char) (h : isWS c = false) :
    skipWS (c :: cs) = c :: cs := by
  simp [skipWS, List.dropWhile_cons, h]

theorem skipWS_cons_ws {c : Char} (cs : List Char) (h : isWS c = true) :
    skipWS (c :: cs) = skipWS cs := by
  simp [skipWS, List.dropWhile_cons, h]

theorem expectC_self (a : Char) (t : List Char) : expectC a (a :: t) = some t := by
  simp [expectC]

theorem takeWhile_all_append {p : Char → Bool} {l : List Char} (c : Char) (t : List Char)
    (hl : ∀ x ∈ l, p x = true) (hc : p c = false) :
    (l ++ c :: t).takeWhile p = l := by
  induction l with
  | nil => simp [List.takeWhile_cons, hc]
  | cons a as ih =>
    have ha : p a = true := hl a (by simp)
    simp only [List.cons_append, List.takeWhile_cons, ha, if_true]
    rw [ih (fun x hx => hl x (by simp [hx]))]

theorem dropWhile_all_append {p : Char → Bool} {l : List Char} (c : Char) (t : List Char)
    (hl : ∀ x ∈ l, p x = true) (hc : p c = false) :
    (l ++ c :: t).dropWhile p = c :: t := by
  induction l with
  | nil => simp [List.dropWhile_cons, hc]
  | cons a as ih =>
    have ha : p a = true := hl a (by simp)
    simp only [List.cons_append, List.dropWhile_cons, ha, if_true]
    exact ih (fun x hx => hl x (by simp [hx]))

theorem skipWS_lLogLevel (X : List Char) : skipWS (lLogLevel ++ X) = lLogLevel ++ X := by
  rw [show lLogLevel ++ X = 'L' :: ("ogLevel::".data ++ X) from rfl]
  exact skipWS_cons_not _ (by decide)

theorem skipWS_lFILE (X : List Char) : skipWS (lFILE ++ X) = lFILE ++ X := by
  rw [show lFILE ++ X = '_' :: ("_FILE__".data ++ X) from rfl]
  exact skipWS_cons_not _ (by decide)

theorem skipWS_lLINE (X : List Char) : skipWS (lLINE ++ X) = lLINE ++ X := by
  rw [show lLINE ++ X = '_' :: ("_LINE__".data ++ X) from rfl]
  exact skipWS_cons_not _ (by decide)

theorem matchAtL_callBody_core {w msg : List Char} (tail : List Char)
    (hw1 : w ≠ []) (hw2 : ∀ c ∈ w, isWordChar c = true) :
    matchAtL (callBody w msg tail) =
      (expectC '"' ((msg ++ '"' :: tail).dropWhile notQuote)).bind fun cs6 =>
        (matchTail cs6).map fun r =>
          (lLogLevel ++ w, (msg ++ '"' :: tail).takeWhile notQuote, r) := by
  have hwe : w.isEmpty = false := by
    cases w with
    | nil => exact absurd rfl hw1
    | cons a as => rfl
  unfold matchAtL
  rw [show callBody w msg tail =
        lLoggerLog ++
          ('(' :: (lLogLevel ++ (w ++ (',' :: ' ' :: '"' :: (msg ++ ('"' :: tail))))))
      from rfl]
  rw [stripL_self_append, Option.some_bind, skipWS_cons_not _ (by decide),
    expectC_self, Option.some_bind, skipWS_lLogLevel, stripL_self_append,
    Option.some_bind]
  rw [takeWhile_all_append ',' _ hw2 (by decide), dropWhile_all_append ',' _ hw2 (by decide)]
  rw [if_neg (by simp [hwe])]
  rw [skipWS_cons_not _ (by decide), expectC_self, Option.some_bind,
    skipWS_cons_ws _ (by decide), skipWS_cons_not _ (by decide), expectC_self,
    Option.some_bind]

theorem matchAtL_call_noQuote {w msg : List Char} (tail : List Char)
    (hw1 : w ≠ []) (hw2 : ∀ c ∈ w, isWordChar c = true)
    (hm : ∀ c ∈ msg, notQuote c = true) :
    matchAtL (callBody w msg tail) =
      (matchTail tail).map fun r => (lLogLevel ++ w, msg, r) := by
  rw [matchAtL_callBody_core tail hw1 hw2,
    takeWhile_all_append '"' _ hm (by decide),
    dropWhile_all_append '"' _ hm (by decide),
    expectC_self, Option.some_bind]

theorem dropWhile_head_false {p : Char → Bool} {l : List Char} {d : Char} {m2 : List Char}
    (h : l.dropWhile p = d :: m2) : p d = false := by
  induction l with
  | nil => cases h
  | cons a as ih =>
    by_cases ha : p a
    · rw [List.dropWhile_cons, if_pos ha] at h
      exact ih h
    · rw [List.dropWhile_cons, if_neg ha] at h
      cases h
      exact Bool.eq_false_iff.mpr ha

theorem matchAtL_call_quote {w msg : List Char} (tail : List Char)
    (hw1 : w ≠ []) (hw2 : ∀ c ∈ w, isWordChar c = true)
    {m2 : List Char} (hdp : msg.dropWhile notQuote = '"' :: m2) :
    matchAtL (callBody w msg tail) =
      (matchTail (m2 ++ '"' :: tail)).map fun r =>
        (lLogLevel ++ w, msg.takeWhile notQuote, r) := by
  have htk : ∀ c ∈ msg.takeWhile notQuote, notQuote c = true :=
    fun c hc => List.mem_takeWhile_imp hc
  have hm : msg = msg.takeWhile notQuote ++ '"' :: m2 := by
    conv_lhs => rw [← List.takeWhile_append_dropWhile (p := notQuote) (l := msg)]
    rw [hdp]
  have he : msg ++ '"' :: tail = msg.takeWhile notQuote ++ '"' :: (m2 ++ '"' :: tail) := by
    conv_lhs => rw [hm]
    simp [List.append_assoc]
  rw [matchAtL_callBody_core tail hw1 hw2, he,
    takeWhile_all_append '"' _ htk (by decide),
    dropWhile_all_append '"' _ htk (by decide),
    expectC_self, Option.some_bind]

theorem matchTail_close (rest : List Char) : matchTail (')' :: ';' :: rest) = some rest := by
  have hfl : matchFileLine (')' :: ';' :: rest) = none := by
    unfold matchFileLine
    rw [skipWS_cons_not _ (by decide)]
    rw [show expectC ',' (')' :: ';' :: rest) = none from by simp [expectC]]
    rfl
  rw [matchTail_of_fl_none hfl]
  unfold matchClose
  rw [skipWS_cons_not _ (by decide), expectC_self, Option.some_bind, expectC_self]

theorem matchClose_cons (rest : List Char) : matchClose (')' :: ';' :: rest) = some rest := by
  unfold matchClose
  rw [skipWS_cons_not _ (by decide), expectC_self, Option.some_bind, expectC_self]

theorem matchTail_flTail (rest : List Char) : matchTail (flTail rest) = some rest := by
  have hfl : matchFileLine (flTail rest) = some (')' :: ';' :: rest) := by
    unfold matchFileLine flTail
    rw [skipWS_cons_not _ (by decide), expectC_self, Option.some_bind,
      skipWS_cons_ws _ (by decide), skipWS_lFILE, stripL_self_append, Option.some_bind,
      skipWS_cons_not _ (by decide), expectC_self, Option.some_bind,
      skipWS_cons_ws _ (by decide), skipWS_lLINE, stripL_self_append]
  exact matchTail_of_fl_some_close_some hfl (matchClose_cons rest)

theorem callBody_append (w msg tail rest : List Char) :
    callBody w msg tail ++ rest = callBody w msg (tail ++ rest) := by
  simp [callBody, List.append_assoc]

theorem mkCallNoFL_append (w msg rest : List Char) :
    mkCallNoFL w msg ++ rest = callBody w msg (')' :: ';' :: rest) := by
  rw [mkCallNoFL, callBody_append]
  rfl

theorem mkCallFL_append (w msg rest : List Char) :
    mkCallFL w msg ++ rest = callBody w msg (flTail rest) := by
  rw [mkCallFL, callBody_append]
  simp [flTail, List.append_assoc]

theorem matchAtL_mkCallNoFL {w msg : List Char} (rest : List Char)
    (hw1 : w ≠ []) (hw2 : ∀ c ∈ w, isWordChar c = true)
    (hm : ∀ c ∈ msg, notQuote c = true) :
    matchAtL (mkCallNoFL w msg ++ rest) = some (lLogLevel ++ w, msg, rest) := by
  rw [mkCallNoFL_append, matchAtL_call_noQuote _ hw1 hw2 hm, matchTail_close]
  rfl

theorem matchAtL_mkCallFL {w msg : List Char} (rest : List Char)
    (hw1 : w ≠ []) (hw2 : ∀ c ∈ w, isWordChar c = true)
    (hm : ∀ c ∈ msg, notQuote c = true) :
    matchAtL (mkCallFL w msg ++ rest) = some (lLogLevel ++ w, msg, rest) := by
  rw [mkCallFL_append, matchAtL_call_noQuote _ hw1 hw2 hm, matchTail_flTail]
  rfl

theorem subAll_mkCallNoFL {w msg : List Char} (rest : List Char)
    (hw1 : w ≠ []) (hw2 : ∀ c ∈ w, isWordChar c = true)
    (hm : ∀ c ∈ msg, notQuote c = true) :
    subAll (mkCallNoFL w msg ++ rest) = replOut w msg ++ subAll rest :=
  subAll_match (matchAtL_mkCallNoFL rest hw1 hw2 hm)

theorem subAll_mkCallFL {w msg : List Char} (rest : List Char)
    (hw1 : w ≠ []) (hw2 : ∀ c ∈ w, isWordChar c = true)
    (hm : ∀ c ∈ msg, notQuote c = true) :
    subAll (mkCallFL w msg ++ rest) = replOut w msg ++ subAll rest :=
  subAll_match (matchAtL_mkCallFL rest hw1 hw2 hm)

/-! ### The replacement text and the review-marker branch -/

/-- All three message-content branches of `replacer` build the same string. -/
theorem replacer_eq (level message : String) :
    replacer level message =
      convert_log_level level ++ ".message(\"" ++ message ++ "\");" := by
  unfold replacer
  split_ifs <;> rfl

theorem convert_log_level_head (s : String) :
    ∃ t, (convert_log_level s).data = 'S' :: t := by
  unfold convert_log_level
  split_ifs <;> exact ⟨_, rfl⟩

theorem replacerL_head (lvl msg : List Char) :
    ∃ t, replacerL lvl msg = 'S' :: t := by
  obtain ⟨t, ht⟩ := convert_log_level_head (String.mk lvl)
  refine ⟨((t ++ ".message(\"".data) ++ msg) ++ "\");".data, ?_⟩
  unfold replacerL
  rw [replacer_eq]
  simp only [String.data_append, ht, List.cons_append]

theorem repl_append_ne (lvl msg X t : List Char) : replacerL lvl msg ++ X ≠ 'L' :: t := by
  obtain ⟨u, hu⟩ := replacerL_head lvl msg
  rw [hu, List.cons_append]
  intro h
  injection h with h1 _
  exact absurd h1 (by decide)

/-- A successful substitution changes the line: the match starts with the
legacy call name but every replacement starts with the macro name. -/
theorem subAll_ne_of_match {cs : List Char} {x : List Char × List Char × List Char}
    (h : matchAtL cs = some x) : subAll cs ≠ cs := by
  obtain ⟨lvl, msg, r⟩ := x
  obtain ⟨t, ht, -⟩ := matchAtL_some_dest h
  rw [subAll_match h, ht,
    show lLoggerLog ++ t = 'L' :: ("ogger::log".data ++ t) from rfl]
  exact repl_append_ne _ _ _ _

theorem convertLoggerLogL_of_subAll_ne {line : List Char} (h : subAll line ≠ line) :
    convertLoggerLogL line = subAll line := by
  unfold convertLoggerLogL
  rw [if_neg fun hc => h hc.2]

theorem convertLoggerLogL_marker {line : List Char}
    (h1 : containsL lLoggerLog line = true) (h2 : subAll line = line) :
    convertLoggerLogL line = line ++ reviewMarker.data := by
  unfold convertLoggerLogL
  rw [if_pos ⟨h1, h2⟩]

/-- The scanner copies verbatim any region in which no position matches. -/
theorem subAll_copy {sep X : List Char}
    (h : ∀ d ∈ sep.tails, d ≠ [] → matchAtL (d ++ X) = none) :
    subAll (sep ++ X) = sep ++ subAll X := by
  induction sep with
  | nil => rfl
  | cons c cs ih =>
    have h0 : matchAtL (c :: (cs ++ X)) = none := by
      have := h (c :: cs) (by rw [List.tails_cons]; exact List.mem_cons_self _ _)
        (by simp)
      simpa using this
    rw [List.cons_append, subAll_cons_none h0,
      ih fun d hd hne => h d (by rw [List.tails_cons]; exact List.mem_cons_of_mem _ hd) hne]
    rfl

/-- The scanner never extends its input on the right: the output equals the
input followed by extra text only when the extra text is empty. -/
theorem subAll_no_grow : ∀ {cs t : List Char}, subAll cs = cs ++ t → t = [] := by
  intro cs
  induction cs with
  | nil => intro t h; simpa [subAll_nil] using h.symm
  | cons c rest ih =>
    intro t h
    cases hm : matchAtL (c :: rest) with
    | some x =>
      obtain ⟨lvl, msg, r⟩ := x
      obtain ⟨u, hu, -⟩ := matchAtL_some_dest hm
      rw [subAll_match hm, hu,
        show lLoggerLog ++ u = 'L' :: ("ogger::log".data ++ u) from rfl] at h
      rw [hu, show lLoggerLog ++ u = 'L' :: ("ogger::log".data ++ u) from rfl] at hm
      exact absurd (h.trans (List.cons_append _ _ _)) (repl_append_ne _ _ _ _)
    | none =>
      rw [subAll_cons_none hm, List.cons_append] at h
      injection h with _ h2
      exact ih h2

/-- The substitution is the identity exactly when no position of the line
matches the pattern. -/
theorem subAll_id_iff_no_match (cs : List Char) :
    subAll cs = cs ↔ ∀ d ∈ cs.tails, matchAtL d = none := by
  constructor
  · induction cs with
    | nil =>
      intro _ d hd
      rw [show ([] : List Char).tails = [[]] from rfl, List.mem_singleton] at hd
      rw [hd, matchAtL_nil]
    | cons c rest ih =>
      intro h d hd
      cases hm : matchAtL (c :: rest) with
      | some x => exact absurd h (subAll_ne_of_match hm)
      | none =>
        rw [subAll_cons_none hm] at h
        injection h with _ h2
        rw [List.tails_cons] at hd
        rcases List.mem_cons.mp hd with hd | hd
        · rw [hd]; exact hm
        · exact ih h2 d hd
  · induction cs with
    | nil => intro _; rfl
    | cons c rest ih =>
      intro h
      have h0 : matchAtL (c :: rest) = none :=
        h (c :: rest) (by rw [List.tails_cons]; exact List.mem_cons_self _ _)
      rw [subAll_cons_none h0,
        ih fun d hd => h d (by rw [List.tails_cons]; exact List.mem_cons_of_mem _ hd)]

/-! ### A quoted message makes the pattern fail -/

theorem quote_mem_dropWhile {msg : List Char} (hq : '"' ∈ msg) :
    ∃ m2, msg.dropWhile notQuote = '"' :: m2 := by
  induction msg with
  | nil => cases hq
  | cons a as ih =>
    by_cases ha : a = '"'
    · subst ha
      exact ⟨as, by rw [List.dropWhile_cons, if_neg (by simp [notQuote])]⟩
    · have ha' : notQuote a = true := by simp [notQuote, ha]
      rw [List.dropWhile_cons, if_pos ha']
      exact ih (by rcases List.mem_cons.mp hq with h | h
                   · exact absurd h.symm ha
                   · exact h)

theorem matchTail_none_of_head {cs : List Char}
    (h : ∃ d t, skipWS cs = d :: t ∧ d ≠ ',' ∧ d ≠ ')') : matchTail cs = none := by
  obtain ⟨d, t, hs, h1, h2⟩ := h
  have hfl : matchFileLine cs = none := by
    unfold matchFileLine
    rw [hs, show expectC ',' (d :: t) = none from by simp [expectC, h1]]
    rfl
  rw [matchTail_of_fl_none hfl]
  unfold matchClose
  rw [hs, show expectC ')' (d :: t) = none from by simp [expectC, h2]]
  rfl

/-- Skipping whitespace over a region that still contains a double quote
(which is not whitespace) cannot exhaust the input. -/
theorem skipWS_quote_ne_nil (m2 T : List Char) :
    skipWS (m2 ++ '"' :: T) ≠ [] := by
  intro h
  unfold skipWS at h
  have hmem : isWS '"' = true :=
    List.dropWhile_eq_nil_iff.mp h '"' (by simp)
  exact absurd hmem (by decide)

theorem isPrefL_callBody (w msg t : List Char) :
    isPrefL lLoggerLog (callBody w msg t) = true := by
  rw [callBody]
  exact isPrefL_self_append _ _

theorem containsL_of_isPrefL {n cs : List Char} (hn : isPrefL n cs = true) :
    containsL n cs = true := by
  cases cs with
  | nil =>
    cases n with
    | nil => rfl
    | cons a as => cases hn
  | cons c rest =>
    rw [containsL_cons, hn, Bool.true_or]

/-! ### Driver facts -/

theorem mk_append (a b : String) : String.mk (a.data ++ b.data) = a ++ b := rfl

theorem runFiles_length : ∀ (args : List String) (fs : List (String × String)),
    (runFiles fs args).1.length = args.length := by
  intro args
  induction args with
  | nil => intro fs; rfl
  | cons p ps ih =>
    intro fs
    unfold runFiles
    cases hpf : process_file_fs fs p with
    | ok fs1 =>
      show (("Processed: " ++ p) :: (runFiles fs1 ps).1).length = (p :: ps).length
      rw [List.length_cons, List.length_cons, ih]
    | error e =>
      show (("Error processing " ++ p ++ ": " ++ e) :: (runFiles fs ps).1).length
        = (p :: ps).length
      rw [List.length_cons, List.length_cons, ih]

theorem process_file_fs_missing {fs : List (String × String)} {p : String}
    (h : fs.lookup p = none) :
    process_file_fs fs p = Except.error ("No such file or directory: " ++ p) := by
  unfold process_file_fs
  rw [h]

theorem process_file_fs_found {fs : List (String × String)} {p content : String}
    (h : fs.lookup p = some content) :
    process_file_fs fs p = Except.ok ((p, process_file_content content) :: fs) := by
  unfold process_file_fs
  rw [h]

theorem runFiles_cons_error {fs : List (String × String)} {p : String} (ps : List String)
    (h : fs.lookup p = none) :
    runFiles fs (p :: ps) =
      (("Error processing " ++ p ++ ": " ++ ("No such file or directory: " ++ p))
          :: (runFiles fs ps).1,
        (runFiles fs ps).2) := by
  conv_lhs => rw [runFiles]
  rw [process_file_fs_missing h]

theorem runFiles_cons_ok {fs : List (String × String)} {p content : String}
    (ps : List String) (h : fs.lookup p = some content) :
    runFiles fs (p :: ps) =
      (("Processed: " ++ p)
          :: (runFiles ((p, process_file_content content) :: fs) ps).1,
        (runFiles ((p, process_file_content content) :: fs) ps).2) := by
  conv_lhs => rw [runFiles]
  rw [process_file_fs_found h]

/-- Sanity: the canonical call builders agree with the literal strings. -/
theorem mkCall_literals :
    mkCallNoFL "INFO".data "hi".data = "Logger::log(LogLevel::INFO, \"hi\");".data
    ∧ mkCallFL "INFO".data "hi".data
        = "Logger::log(LogLevel::INFO, \"hi\", __FILE__, __LINE__);".data :=
  ⟨rfl, rfl⟩

/-! ### Claims -/

/-- C1 counterexample: the review-marker line read by `readlines` carries its
newline terminator, and the marker is appended after the whole line string,
i.e. after the terminator, not between the content and the terminator as the
claim states. -/
theorem c1_counterexample :
    convert_logger_log "Logger::log(x);\n" =
      "Logger::log(x);\n // TODO: Convert to structured logging"
    ∧ convert_logger_log "Logger::log(x);\n" ≠
      "Logger::log(x); // TODO: Convert to structured logging\n" := by
  constructor
  · decide
  · decide

/-- C1 (amended): `process_file` maps the rewriter over the lines in order,
so no line is dropped, duplicated or reordered, and every output line is
byte-identical to its input line, a successful rewrite of it, or the input
line (as read, including any terminator) with the review marker appended at
the very end of the line string — after the terminator when one is present. -/
theorem c1_line_shapes (content : String) :
    process_file_lines (splitLinesKeep content)
        = (splitLinesKeep content).map convert_logger_log
    ∧ (process_file_lines (splitLinesKeep content)).length
        = (splitLinesKeep content).length
    ∧ ∀ line ∈ splitLinesKeep content,
        convert_logger_log line = line
        ∨ (convert_logger_log line = String.mk (subAll line.data)
            ∧ convert_logger_log line ≠ line)
        ∨ convert_logger_log line = line ++ reviewMarker := by
  refine ⟨rfl, by simp [process_file_lines], ?_⟩
  intro line _
  by_cases hc : containsL lLoggerLog line.data = true ∧ subAll line.data = line.data
  · right; right
    unfold convert_logger_log
    rw [convertLoggerLogL_marker hc.1 hc.2]
    exact mk_append line reviewMarker
  · have hres : convertLoggerLogL line.data = subAll line.data := by
      unfold convertLoggerLogL
      rw [if_neg hc]
    by_cases hs : subAll line.data = line.data
    · left
      unfold convert_logger_log
      rw [hres, hs, string_mk_data]
    · right; left
      refine ⟨by unfold convert_logger_log; rw [hres], ?_⟩
      intro he
      apply hs
      have hd := congrArg String.data he
      rw [show (convert_logger_log line).data = convertLoggerLogL line.data from rfl,
        hres] at hd
      exact hd

/-- C1 witness: the shape disjunction at a concrete line. -/
theorem c1_witness :
    convert_logger_log "int x = 5;\n" = "int x = 5;\n"
    ∨ (convert_logger_log "int x = 5;\n" = String.mk (subAll "int x = 5;\n".data)
        ∧ convert_logger_log "int x = 5;\n" ≠ "int x = 5;\n")
    ∨ convert_logger_log "int x = 5;\n" = "int x = 5;\n" ++ reviewMarker :=
  (c1_line_shapes "int x = 5;\n").2.2 _ (by decide)

/-- C2: a line made of a canonical single-line legacy call (with or without
the `__FILE__, __LINE__` pair) followed by any remaining text rewrites that
call to MacroName`.message("MessageText");`, dropping the positional pair,
and continues substitution on the remainder; including the two documented
examples. -/
theorem c2_rewrites_each_match (w msg rest : List Char)
    (hw1 : w ≠ []) (hw2 : ∀ c ∈ w, isWordChar c = true)
    (hm : ∀ c ∈ msg, notQuote c = true) :
    convertLoggerLogL (mkCallNoFL w msg ++ rest) = replOut w msg ++ subAll rest
    ∧ convertLoggerLogL (mkCallFL w msg ++ rest) = replOut w msg ++ subAll rest
    ∧ replOut w msg =
        (convert_log_level (String.mk (lLogLevel ++ w))).data
          ++ ".message(\"".data ++ msg ++ "\");".data
    ∧ convert_logger_log "Logger::log(LogLevel::ERROR_LEVEL, \"disk full\");"
        = "SLOG_ERROR().message(\"disk full\");"
    ∧ convert_logger_log
          "Logger::log(LogLevel::INFO, \"[OK] started\", __FILE__, __LINE__);"
        = "SLOG_INFO().message(\"[OK] started\");" := by
  refine ⟨?_, ?_, ?_, by decide, by decide⟩
  · rw [convertLoggerLogL_of_subAll_ne
      (subAll_ne_of_match (matchAtL_mkCallNoFL rest hw1 hw2 hm)),
      subAll_mkCallNoFL rest hw1 hw2 hm]
  · rw [convertLoggerLogL_of_subAll_ne
      (subAll_ne_of_match (matchAtL_mkCallFL rest hw1 hw2 hm)),
      subAll_mkCallFL rest hw1 hw2 hm]
  · unfold replOut replacerL
    rw [replacer_eq]
    simp [String.data_append, List.append_assoc]

/-- C2 witness. -/
theorem c2_witness :
    convertLoggerLogL (mkCallNoFL "DEBUG".data "boot".data ++ []) =
      replOut "DEBUG".data "boot".data ++ subAll [] :=
  (c2_rewrites_each_match "DEBUG".data "boot".data [] (by decide)
    (by decide) (by decide)).1

/-- C3: the Level Mapper sends each of the five recognized tokens to its
distinct documented macro name, and every other string to SLOG_INFO(); it is
a pure function, so it has no side effects. -/
theorem c3_level_mapper :
    convert_log_level "LogLevel::DEBUG" = "SLOG_DEBUG()"
    ∧ convert_log_level "LogLevel::INFO" = "SLOG_INFO()"
    ∧ convert_log_level "LogLevel::WARNING" = "SLOG_WARNING()"
    ∧ convert_log_level "LogLevel::ERROR_LEVEL" = "SLOG_ERROR()"
    ∧ convert_log_level "LogLevel::CRITICAL" = "SLOG_CRITICAL()"
    ∧ (∀ s : String, s ≠ "LogLevel::DEBUG" → s ≠ "LogLevel::INFO" →
        s ≠ "LogLevel::WARNING" → s ≠ "LogLevel::ERROR_LEVEL" →
        s ≠ "LogLevel::CRITICAL" → convert_log_level s = "SLOG_INFO()")
    ∧ List.Pairwise (fun a b => a ≠ b)
        ["SLOG_DEBUG()", "SLOG_INFO()", "SLOG_WARNING()", "SLOG_ERROR()",
          "SLOG_CRITICAL()"] := by
  refine ⟨rfl, rfl, rfl, rfl, rfl, ?_, by decide⟩
  intro s h1 h2 h3 h4 h5
  unfold convert_log_level
  rw [if_neg h1, if_neg h2, if_neg h3, if_neg h4, if_neg h5]

/-- C3 witness: an unrecognized token falls back to the INFO macro. -/
theorem c3_witness : convert_log_level "LogLevel::TRACE" = "SLOG_INFO()" :=
  c3_level_mapper.2.2.2.2.2.1 "LogLevel::TRACE" (by decide) (by decide)
    (by decide) (by decide) (by decide)

/-- C4 counterexample: a line taking the review-marker path still contains
the legacy call name, so a second application appends the marker again; the
rewriter is not idempotent on every line. -/
theorem c4_counterexample :
    convert_logger_log (convert_logger_log "Logger::log(x);")
      ≠ convert_logger_log "Logger::log(x);" := by decide

/-- C4 (amended): a second application is a no-op on every line whose first
image no longer contains the legacy call name — in particular on every
successfully rewritten line whose message text does not itself smuggle the
call name back in; lines that took the review-marker path keep the call name
and receive the marker again. -/
theorem c4_second_pass_noop (line : String)
    (h : containsS "Logger::log" (convert_logger_log line) = false) :
    convert_logger_log (convert_logger_log line) = convert_logger_log line :=
  noLegacy_fix_str h

/-- C4 witness. -/
theorem c4_witness :
    containsS "Logger::log"
        (convert_logger_log "Logger::log(LogLevel::INFO, \"hi\");") = false
    ∧ convert_logger_log (convert_logger_log "Logger::log(LogLevel::INFO, \"hi\");")
        = convert_logger_log "Logger::log(LogLevel::INFO, \"hi\");" :=
  ⟨by decide, c4_second_pass_noop _ (by decide)⟩

/-- C5: a line with two canonical legacy calls separated by text in which no
match starts has both calls rewritten in the one pass, with the intervening
text preserved verbatim. -/
theorem c5_two_calls (w1 m1 w2 m2 sep : List Char)
    (hw1 : w1 ≠ []) (hw2 : ∀ c ∈ w1, isWordChar c = true)
    (hm1 : ∀ c ∈ m1, notQuote c = true)
    (hv1 : w2 ≠ []) (hv2 : ∀ c ∈ w2, isWordChar c = true)
    (hm2 : ∀ c ∈ m2, notQuote c = true)
    (hsep : ∀ d ∈ sep.tails, d ≠ [] → matchAtL (d ++ mkCallNoFL w2 m2) = none) :
    convertLoggerLogL (mkCallNoFL w1 m1 ++ (sep ++ mkCallNoFL w2 m2))
      = replOut w1 m1 ++ (sep ++ replOut w2 m2) := by
  have hc2 : subAll (mkCallNoFL w2 m2) = replOut w2 m2 := by
    have h := subAll_mkCallNoFL [] hv1 hv2 hm2
    rw [List.append_nil] at h
    rw [h, subAll_nil, List.append_nil]
  rw [convertLoggerLogL_of_subAll_ne
      (subAll_ne_of_match (matchAtL_mkCallNoFL _ hw1 hw2 hm1)),
    subAll_mkCallNoFL _ hw1 hw2 hm1, subAll_copy hsep, hc2]

/-- C5 witness. -/
theorem c5_witness :
    convertLoggerLogL (mkCallNoFL "WARNING".data "low".data
        ++ (" x = 1; ".data ++ mkCallNoFL "INFO".data "ok".data))
      = replOut "WARNING".data "low".data
        ++ (" x = 1; ".data ++ replOut "INFO".data "ok".data) :=
  c5_two_calls _ _ _ _ _ (by decide) (by decide) (by decide) (by decide)
    (by decide) (by decide) (by decide)

/-- C6: the driver exits 1 with the usage message on zero paths and 0
otherwise; it prints one line per supplied path; a missing file produces a
diagnostic naming the path and cause and processing continues with the
remaining paths unchanged, so one failure never aborts the batch and never
changes the exit code. -/
theorem c6_driver (fs : List (String × String)) (args : List String) :
    ((main_run fs args).1 = if args.isEmpty then 1 else 0)
    ∧ (args = [] → (main_run fs args).2.1 = [usageMsg])
    ∧ (args ≠ [] → (main_run fs args).2.1 = (runFiles fs args).1)
    ∧ ((runFiles fs args).1.length = args.length)
    ∧ (∀ fs2 p ps, List.lookup p fs2 = none →
        runFiles fs2 (p :: ps) =
          (("Error processing " ++ p ++ ": " ++ ("No such file or directory: " ++ p))
              :: (runFiles fs2 ps).1, (runFiles fs2 ps).2))
    ∧ (∀ fs2 p ps content, List.lookup p fs2 = some content →
        runFiles fs2 (p :: ps) =
          (("Processed: " ++ p)
              :: (runFiles ((p, process_file_content content) :: fs2) ps).1,
            (runFiles ((p, process_file_content content) :: fs2) ps).2)) := by
  refine ⟨?_, ?_, ?_, runFiles_length args fs, ?_, ?_⟩
  · cases args <;> rfl
  · intro h; subst h; rfl
  · intro h
    cases args with
    | nil => exact absurd rfl h
    | cons a as => rfl
  · intro fs2 p ps h
    exact runFiles_cons_error ps h
  · intro fs2 p ps content h
    exact runFiles_cons_ok ps h

/-- C6 witness. -/
theorem c6_witness :
    (main_run [] []).1 = 1
    ∧ (main_run [] []).2.1 = [usageMsg]
    ∧ (main_run [("a.cpp", "int x;\n")] ["missing.cpp", "a.cpp"]).1 = 0
    ∧ runFiles [("a.cpp", "int x;\n")] ["missing.cpp"] =
        (["Error processing missing.cpp: No such file or directory: missing.cpp"],
          [("a.cpp", "int x;\n")]) := by
  refine ⟨?_, (c6_driver [] []).2.1 rfl, ?_, ?_⟩
  · have h := (c6_driver ([] : List (String × String)) []).1
    simpa using h
  · have h := (c6_driver [("a.cpp", "int x;\n")] ["missing.cpp", "a.cpp"]).1
    simpa using h
  · have h := (c6_driver ([] : List (String × String)) []).2.2.2.2.1
      [("a.cpp", "int x;\n")] "missing.cpp" [] (by decide)
    rw [h]
    decide

/-- C7: a line containing no occurrence of the legacy call name is returned
byte-identical. -/
theorem c7_no_legacy_identity (line : String)
    (h : containsS "Logger::log" line = false) :
    convert_logger_log line = line :=
  noLegacy_fix_str h

/-- C7 witness. -/
theorem c7_witness :
    containsS "Logger::log" "int x = 5;" = false
    ∧ convert_logger_log "int x = 5;" = "int x = 5;" :=
  ⟨by decide, c7_no_legacy_identity _ (by decide)⟩

/-- C8 counterexample: in the canonical call whose message text is
`done"); x` — the line `Logger::log(LogLevel::INFO, "done"); x");` — the
message contains a literal double quote, yet the pattern does match the
call (the quote ends the message group early at `done` and the call text
completes a shorter match), so the line is rewritten and no review marker
is appended, refuting the claim as stated. -/
theorem c8_counterexample :
    '"' ∈ "done\"); x".data
    ∧ matchAtL (mkCallNoFL "INFO".data "done\"); x".data) ≠ none
    ∧ convertLoggerLogL (mkCallNoFL "INFO".data "done\"); x".data)
        = "SLOG_INFO().message(\"done\"); x\");".data
    ∧ convertLoggerLogL (mkCallNoFL "INFO".data "done\"); x".data)
        ≠ mkCallNoFL "INFO".data "done\"); x".data ++ reviewMarker.data := by
  refine ⟨by decide, by decide, by decide, by decide⟩

/-- C8 (amended): a canonical legacy call whose message text contains a
literal double quote is not matched by the pattern and falls through to the
review-marker path, provided the pattern cannot resume after the truncated
message group — the first non-whitespace character of the call text that
follows the first embedded quote is neither ',' nor ')' — and the call name
occurs only once on the line; without that proviso the pattern can complete
a shorter match inside the call and the line is rewritten with no marker. -/
theorem c8_quoted_message (w msg : List Char)
    (hw1 : w ≠ []) (hw2 : ∀ c ∈ w, isWordChar c = true)
    (hq : '"' ∈ msg)
    (hafter :
      (skipWS ((msg.dropWhile notQuote).tail ++ '"' :: ')' :: ';' :: [])).head?
          ≠ some ','
      ∧ (skipWS ((msg.dropWhile notQuote).tail ++ '"' :: ')' :: ';' :: [])).head?
          ≠ some ')')
    (honce : containsL lLoggerLog (List.drop 1 (mkCallNoFL w msg)) = false) :
    matchAtL (mkCallNoFL w msg) = none
    ∧ convertLoggerLogL (mkCallNoFL w msg)
        = mkCallNoFL w msg ++ reviewMarker.data := by
  obtain ⟨m2, hdp⟩ := quote_mem_dropWhile hq
  have htail : (msg.dropWhile notQuote).tail = m2 := by rw [hdp]; rfl
  rw [htail] at hafter
  have hmt : matchTail (m2 ++ '"' :: ')' :: ';' :: []) = none := by
    cases hs : skipWS (m2 ++ '"' :: ')' :: ';' :: []) with
    | nil => exact absurd hs (skipWS_quote_ne_nil m2 _)
    | cons d t =>
      rw [hs] at hafter
      simp only [List.head?_cons, ne_eq, Option.some.injEq] at hafter
      exact matchTail_none_of_head ⟨d, t, hs, hafter.1, hafter.2⟩
  have h0 : matchAtL (mkCallNoFL w msg) = none := by
    rw [mkCallNoFL, matchAtL_call_quote _ hw1 hw2 hdp, hmt]
    rfl
  refine ⟨h0, ?_⟩
  have hhead : mkCallNoFL w msg = 'L' :: List.drop 1 (mkCallNoFL w msg) := by
    rw [show mkCallNoFL w msg =
      'L' :: ("ogger::log".data ++ ('(' :: (lLogLevel ++ (w ++
        (',' :: ' ' :: '"' :: (msg ++ ('"' :: (')' :: ';' :: [])))))))) from rfl]
    rfl
  have hsub : subAll (mkCallNoFL w msg) = mkCallNoFL w msg := by
    rw [hhead] at h0 ⊢
    rw [subAll_cons_none h0, subAll_id_of_not_contains honce]
  have hcont : containsL lLoggerLog (mkCallNoFL w msg) = true :=
    containsL_of_isPrefL (isPrefL_callBody w msg _)
  rw [convertLoggerLogL_marker hcont hsub]

/-- C8 witness: the message `say "hi", friend` contains an embedded quote
(and a comma after it), and the line still takes the review-marker path. -/
theorem c8_witness :
    convertLoggerLogL (mkCallNoFL "INFO".data "say \"hi\", friend".data)
      = mkCallNoFL "INFO".data "say \"hi\", friend".data ++ reviewMarker.data :=
  (c8_quoted_message "INFO".data "say \"hi\", friend".data (by decide) (by decide)
    (by decide) (by decide) (by decide)).2

/-- C9: the message-content branches of `replacer` are dead: every branch
builds the same string, so the replacer coincides with the branch-free
function returning MacroName`.message("MessageText");`. -/
theorem c9_branch_free (level message : String) :
    replacer level message = replacerSimple level message := by
  rw [replacer_eq]
  rfl

/-- C10: the review marker is appended exactly when the line contains the
legacy call name and the substitution left the line unchanged; the
substitution is the identity exactly when no position of the line matches the
pattern; hence a line with at least one match never receives the marker, even
if another non-matching occurrence of the call name is present. -/
theorem c10_marker_characterization (line : List Char) :
    (convertLoggerLogL line = line ++ reviewMarker.data ↔
      containsL lLoggerLog line = true ∧ subAll line = line)
    ∧ (subAll line = line ↔ ∀ d ∈ line.tails, matchAtL d = none)
    ∧ ((∃ d ∈ line.tails, matchAtL d ≠ none) →
        convertLoggerLogL line ≠ line ++ reviewMarker.data) := by
  have hmark : reviewMarker.data ≠ [] := by decide
  refine ⟨⟨?_, fun hc => convertLoggerLogL_marker hc.1 hc.2⟩,
    subAll_id_iff_no_match line, ?_⟩
  · intro h
    by_cases hc : containsL lLoggerLog line = true ∧ subAll line = line
    · exact hc
    · exfalso
      have hres : convertLoggerLogL line = subAll line := by
        unfold convertLoggerLogL
        rw [if_neg hc]
      rw [hres] at h
      exact hmark (subAll_no_grow h)
  · rintro ⟨d, hd, hne⟩ h
    have hsne : subAll line ≠ line := fun hid =>
      hne (((subAll_id_iff_no_match line).mp hid) d hd)
    rw [convertLoggerLogL_of_subAll_ne hsne] at h
    exact hmark (subAll_no_grow h)

/-- C10 witness: a line with one matching call and one further non-matching
occurrence of the call name is rewritten and does not receive the marker. -/
theorem c10_witness :
    convertLoggerLogL "Logger::log(LogLevel::INFO, \"x\"); Logger::log(".data
      ≠ "Logger::log(LogLevel::INFO, \"x\"); Logger::log(".data ++ reviewMarker.data :=
  (c10_marker_characterization _).2.2
    ⟨"Logger::log(LogLevel::INFO, \"x\"); Logger::log(".data, by decide, by decide⟩

end ConvertLogging
